import Mathlib

/-!
Verification of the live meeting-assistant pipeline (capture → transcribe →
translate → minutes).  Shallow embedding of the Python sources in `app/`:
`pipeline.py`, `health.py`, `vad.py`, `output.py`, `transcribe.py`.
Machine floats in the source are modelled by exact rationals; wall-clock
times by integers; fallible calls by `Option`/sum types.
-/

namespace Meeting

/-! ## Python string primitives

`str.strip()` removes leading and trailing ASCII whitespace
(space, tab, newline, carriage return, vertical tab, form feed);
`str.lower()` lowercases character-wise. -/

def pyIsSpace (c : Char) : Bool :=
  c = ' ' || c = '\t' || c = '\n' || c = '\r' || c = '\x0b' || c = '\x0c'

def pyStripList (l : List Char) : List Char :=
  ((l.dropWhile pyIsSpace).reverse.dropWhile pyIsSpace).reverse

def pyStrip (s : String) : String :=
  ⟨pyStripList s.data⟩

def pyLower (s : String) : String :=
  ⟨s.data.map Char.toLower⟩

/-- `" ".join(parts)` -/
def joinSpace : List String → String
  | [] => ""
  | [s] => s
  | s :: rest => s ++ " " ++ joinSpace rest

/-! ## `transcribe.py` — `Transcriber.transcribe_file`

Both backends return a stripped string:
mlx does `result.get("text", "").strip()`; faster-whisper does
`" ".join([s.text.strip() for s in segments]).strip()`. -/

def transcribe_mlx (raw : String) : String :=
  pyStrip raw

def transcribe_faster_whisper (segments : List String) : String :=
  pyStrip (joinSpace (segments.map pyStrip))

/-! ## `health.py` — `HealthMonitor` -/

structure HealthMonitor where
  lmstudio_was_down : Bool
  consecutive_capture_errors : Nat
  consecutive_transcribe_errors : Nat
deriving Repr, DecidableEq

def HealthMonitor.init : HealthMonitor :=
  ⟨false, 0, 0⟩

def on_capture_success (h : HealthMonitor) : HealthMonitor :=
  { h with consecutive_capture_errors := 0 }

/-- Returns the bumped monitor and the recovery action string. -/
def on_capture_error (h : HealthMonitor) : HealthMonitor × String :=
  let c := h.consecutive_capture_errors + 1
  let h' := { h with consecutive_capture_errors := c }
  if c ≤ 2 then (h', "retry")
  else if c ≤ 5 then (h', "backoff")
  else (h', "skip")

def on_transcribe_success (h : HealthMonitor) : HealthMonitor :=
  { h with consecutive_transcribe_errors := 0 }

def on_transcribe_error (h : HealthMonitor) : HealthMonitor × String :=
  let c := h.consecutive_transcribe_errors + 1
  let h' := { h with consecutive_transcribe_errors := c }
  if c ≤ 3 then (h', "retry") else (h', "skip")

/-- `alive` is the result of the `check_lmstudio_alive()` probe. -/
def on_llm_error (alive : Bool) (h : HealthMonitor) : HealthMonitor × String :=
  if !alive then ({ h with lmstudio_was_down := true }, "transcribe_only")
  else (h, "retry")

def on_llm_success (h : HealthMonitor) : HealthMonitor :=
  { h with lmstudio_was_down := false }

/-! ## `pipeline.py` — hallucination blacklist and the transcribe worker -/

/-- Common Whisper hallucinations on silent/near-silent audio
(`_HALLUCINATION_PATTERNS` in `pipeline.py`). -/
def hallucinationPatterns : List String :=
  ["thank you", "thanks for watching", "thanks for listening",
   "you", "bye", "the end", "thank you for watching",
   "subscribe", "like and subscribe"]

/-- Observable effects of one iteration of `Pipeline._transcribe_worker`
after the transcription attempts have produced `text`
(`none` models `text` still being `None`: every attempt failed). -/
structure TranscribeEffects where
  /-- `(text, timestamp)` put on the translate queue, `none` if dropped. -/
  enqueued : Option (String × String)
  /-- line appended to `transcript.txt`, `none` if dropped -/
  transcriptLine : Option String
  /-- whether the source WAV was unlinked (`CLEANUP_WAV` branch reached) -/
  deleted : Bool
deriving Repr, DecidableEq

/-- `Pipeline._transcribe_worker`, post-transcription part (pipeline.py
lines 189–211): drop falsy text, drop blacklist matches when
`SKIP_EMPTY_CHUNKS`, otherwise emit and clean up the WAV. -/
def transcribeStep (skip_empty cleanup_wav : Bool) (ts : String)
    (text : Option String) : TranscribeEffects :=
  match text with
  | none => ⟨none, none, false⟩
  | some t =>
    if t = "" then ⟨none, none, false⟩
    else if skip_empty ∧ pyLower (pyStrip t) ∈ hallucinationPatterns then
      ⟨none, none, false⟩
    else
      ⟨some (t, ts), some ("[" ++ ts ++ "] [SYS] " ++ t), cleanup_wav⟩

example : pyStrip ("  Thank you ") = "Thank you" := by decide

example : (transcribeStep true true ("t0") (some ("Thank You"))).enqueued = none := by
  decide

example : (transcribeStep true true ("t0") (some ("hello"))).deleted = true := by
  decide

/-! ## `pipeline.py` — the translate worker

A queue item is `(text, timestamp)` or `(text, timestamp, retry_count)`;
the worker normalizes to a retry count defaulting to 0. -/

structure TranslateItem where
  text : String
  timestamp : String
  retry_count : Nat
deriving Repr, DecidableEq

/-- One `(seq, time.time(), line)` tuple of `_translation_buffer`. -/
structure BufferEntry where
  seq : Nat
  time : Int
  line : String
deriving Repr, DecidableEq

/-- `collections.deque(maxlen := cap)` append: evicts oldest-first. -/
def dequeAppend (cap : Nat) (buf : List α) (x : α) : List α :=
  let b := buf ++ [x]
  if cap < b.length then b.drop (b.length - cap) else b

/-- `_translation_buffer` (capacity 1200) together with `_buffer_seq`,
both guarded by `_buffer_lock`. -/
structure BufferState where
  buffer_seq : Nat
  translation_buffer : List BufferEntry
deriving Repr, DecidableEq

def BufferState.init : BufferState := ⟨0, []⟩

def BUFFER_CAP : Nat := 1200

/-- Result of the LM call in the translate worker: either the raw returned
string (streamed tokens already concatenated) or an exception, tagged with
what `check_lmstudio_alive()` reports inside `on_llm_error`. -/
inductive LlmResult where
  | ok (raw : String)
  | exc (aliveAtError : Bool)
deriving Repr, DecidableEq

/-- Observable effects of one iteration of `Pipeline._translate_worker`. -/
structure TranslateEffects where
  /-- item put back on the transcribe queue, `none` if not requeued -/
  requeued : Option TranslateItem
  /-- line appended to `translation.txt` -/
  translationLine : Option String
  /-- `(text, translation)` fed to `StructuredOutput.add_entry` -/
  structuredEntry : Option (String × String)
  /-- entry appended to the translation ring buffer -/
  newEntry : Option BufferEntry
  /-- whether `self._ui.on_translation` was called -/
  uiNotified : Bool
deriving Repr, DecidableEq

def TranslateEffects.none_ : TranslateEffects := ⟨none, none, none, none, false⟩

/-- `Pipeline._translate_worker`, one dequeued item (pipeline.py lines
217–268).  `gateAlive` is the `check_lmstudio_alive()` probe taken in the
degraded-mode gate (only consulted when the LM-down latch is set). -/
def translateStep (target_lang ts : String) (now : Int) (gateAlive : Bool)
    (h : HealthMonitor) (st : BufferState) (item : TranslateItem)
    (result : LlmResult) : HealthMonitor × BufferState × TranslateEffects :=
  if h.lmstudio_was_down ∧ gateAlive = false then
    -- still down: skip translation (transcription-only mode)
    (h, st, TranslateEffects.none_)
  else
    let h0 := if h.lmstudio_was_down then on_llm_success h else h
    match result with
    | .exc alive =>
      let pr := on_llm_error alive h0
      if pr.2 = "retry" ∧ item.retry_count < 3 then
        (pr.1, st, { TranslateEffects.none_ with
                     requeued := some ⟨item.text, item.timestamp, item.retry_count + 1⟩ })
      else
        (pr.1, st, TranslateEffects.none_)
    | .ok raw =>
      let tr := pyStrip raw
      let h1 := on_llm_success h0
      if tr = "" then (h1, st, TranslateEffects.none_)
      else
        let entry : BufferEntry := ⟨st.buffer_seq + 1, now, "[" ++ ts ++ "] " ++ tr⟩
        let st' : BufferState :=
          ⟨st.buffer_seq + 1, dequeAppend BUFFER_CAP st.translation_buffer entry⟩
        (h1, st',
         { requeued := none,
           translationLine := some ("[" ++ ts ++ "] [SYS->" ++ target_lang ++ "] " ++ tr),
           structuredEntry := some (item.text, tr),
           newEntry := some entry,
           uiNotified := true })

/-! ## `pipeline.py` — the minutes worker -/

/-- `"\n".join(lines)` -/
def joinNewline : List String → String
  | [] => ""
  | [s] => s
  | s :: rest => s ++ "\n" ++ joinNewline rest

structure MinutesState where
  last_seen_seq : Nat
  last_summary : String
deriving Repr, DecidableEq

def MinutesState.init : MinutesState := ⟨0, ""⟩

/-- The snapshot taken under the buffer lock: lines of entries with
`seq > last_seen_seq and ts >= cutoff`. -/
def minutesNewLines (window now : Int) (buffer : List BufferEntry)
    (ms : MinutesState) : List String :=
  let cutoff : Int := if 0 < window then now - window else 0
  (buffer.filter (fun e => ms.last_seen_seq < e.seq ∧ cutoff ≤ e.time)).map (·.line)

/-- `current_max_seq`: the last buffer entry's seq, or `last_seen_seq`
if the buffer is empty. -/
def minutesCurrentMax (buffer : List BufferEntry) (ms : MinutesState) : Nat :=
  match buffer.getLast? with
  | some e => e.seq
  | none => ms.last_seen_seq

/-- One tick of `Pipeline._minutes_worker` (pipeline.py lines 281–316).
`summary` is the result of `summarize_block`: `none` models the call
raising an exception. -/
def minutesTick (window now : Int) (buffer : List BufferEntry)
    (ms : MinutesState) (summary : Option String) : MinutesState :=
  let new_lines := minutesNewLines window now buffer ms
  if new_lines = [] then ms
  else if pyStrip (joinNewline new_lines) = "" then ms
  else
    match summary with
    | some m => ⟨minutesCurrentMax buffer ms, m⟩
    | none => ms

/-! ## Combined translate/minutes transition system

Only these two workers touch `_translation_buffer`, `_buffer_seq`,
`last_seen_seq` and `_last_summary_text`; captures the interleavings of
those two threads (each critical section runs under `_buffer_lock`). -/

structure TranslateInput where
  item : TranslateItem
  result : LlmResult
  gateAlive : Bool
  ts : String
  now : Int
deriving Repr, DecidableEq

inductive PipeEvent where
  | translateEv (inp : TranslateInput)
  | minutesEv (now : Int) (summary : Option String)
deriving Repr, DecidableEq

structure PipeState where
  health : HealthMonitor
  buf : BufferState
  minutes : MinutesState
deriving Repr, DecidableEq

def PipeState.init : PipeState := ⟨HealthMonitor.init, BufferState.init, MinutesState.init⟩

def pipeStep (target_lang : String) (window : Int) (s : PipeState) :
    PipeEvent → PipeState
  | .translateEv inp =>
    let r := translateStep target_lang inp.ts inp.now inp.gateAlive
      s.health s.buf inp.item inp.result
    ⟨r.1, r.2.1, s.minutes⟩
  | .minutesEv now summary =>
    ⟨s.health, s.buf, minutesTick window now s.buf.translation_buffer s.minutes summary⟩

def pipeRun (target_lang : String) (window : Int) (s : PipeState)
    (events : List PipeEvent) : PipeState :=
  events.foldl (pipeStep target_lang window) s

/-! ## `vad.py` — `segment_audio`

Machine floats are modelled by exact rationals.  The VAD proper
(`get_speech_timestamps`) is an external model; its output — a list of
`(start, end)` sample indices — is the input here. -/

/-- The merge loop of `segment_audio` (vad.py lines 104–118): fold over the
remaining segments, merging into the current window when the current window
is shorter than `min_chunk_seconds` or the gap is below
`silence_gap_seconds`. -/
def mergeLoop (minChunk gapS : ℚ) (cur : ℚ × ℚ) :
    List (ℚ × ℚ) → List (ℚ × ℚ)
  | [] => [cur]
  | (s, e) :: rest =>
    let duration := cur.2 - cur.1
    let gap := s - cur.2
    if duration < minChunk ∨ gap < gapS then
      mergeLoop minChunk gapS (cur.1, e) rest
    else
      cur :: mergeLoop minChunk gapS (s, e) rest

/-- The split step of `segment_audio` (vad.py lines 121–133): windows longer
than `max_chunk_seconds` are split into `ceil(duration / max)` equal parts. -/
def splitLong (maxChunk : ℚ) (w : ℚ × ℚ) : List (ℚ × ℚ) :=
  let duration := w.2 - w.1
  if duration ≤ maxChunk then [w]
  else
    let n : Nat := (⌈duration / maxChunk⌉).toNat
    let part := duration / (n : ℚ)
    (List.range n).map (fun (i : Nat) =>
      (w.1 + (i : ℚ) * part, min (w.1 + ((i : ℚ) + 1) * part) w.2))

/-- `segment_audio` (vad.py lines 72–135).  `timestamps` are the VAD's
speech spans in sample indices; they are converted to seconds, merged,
then split. -/
def segment_audio (sample_rate : ℚ)
    (min_chunk_seconds max_chunk_seconds silence_gap_seconds : ℚ)
    (timestamps : List (Nat × Nat)) : List (ℚ × ℚ) :=
  let segments := timestamps.map
    (fun t => ((t.1 : ℚ) / sample_rate, (t.2 : ℚ) / sample_rate))
  match segments with
  | [] => []
  | t :: rest =>
    (mergeLoop min_chunk_seconds silence_gap_seconds t rest).flatMap
      (splitLong max_chunk_seconds)

/-! ## `output.py` — `StructuredOutput` and the SRT writer -/

structure TranscriptEntry where
  text : String
  translation : String
  /-- `(timestamp - meeting_start).total_seconds()` -/
  relative_seconds : ℚ
  /-- `_index`, assigned from the monotone `_counter` -/
  index : Nat
deriving Repr, DecidableEq

structure StructuredOutputState where
  counter : Nat
  entries : List TranscriptEntry
deriving Repr, DecidableEq

def StructuredOutputState.init : StructuredOutputState := ⟨0, []⟩

/-- `StructuredOutput.add_entry` (output.py lines 52–63): bump the counter,
append an entry stamped with it.  `rel` is the entry's meeting-relative
seconds at insertion time. -/
def add_entry (st : StructuredOutputState) (text translation : String)
    (rel : ℚ) : StructuredOutputState :=
  ⟨st.counter + 1, st.entries ++ [⟨text, translation, rel, st.counter + 1⟩]⟩

/-- `f"{n:0{w}d}"` for a natural number: left-pad the decimal form with
zeros to width `w`. -/
def padNum (w n : Nat) : String :=
  let s := Nat.repr n
  if s.length < w then (⟨List.replicate (w - s.length) '0'⟩ : String) ++ s else s

/-- `_seconds_to_srt_time` (output.py lines 115–122): `HH:MM:SS,mmm` from a
seconds value; negative inputs clamp the integral part to 0, and the
milliseconds use the Python `seconds % 1` fractional part. -/
def seconds_to_srt_time (seconds : ℚ) : String :=
  let total : Nat := (⌊max 0 seconds⌋).toNat
  let hours := total / 3600
  let mins := total % 3600 / 60
  let secs := total % 60
  let millis : Nat := (⌊Int.fract seconds * 1000⌋).toNat
  padNum 2 hours ++ ":" ++ padNum 2 mins ++ ":" ++ padNum 2 secs ++ ","
    ++ padNum 3 millis

structure SrtCue where
  counter : Nat
  startTs : String
  endTs : String
  text : String
deriving Repr, DecidableEq

/-- `entry.translation if entry.translation else entry.text` -/
def cueText (e : TranscriptEntry) : String :=
  if e.translation = "" then e.text else e.translation

/-- `StructuredOutput._write_srt` (output.py lines 92–112): one cue per
entry; `end` is the next entry's start, or `start + 10.0` for the last. -/
def write_srt : List TranscriptEntry → List SrtCue
  | [] => []
  | [e] => [⟨e.index, seconds_to_srt_time e.relative_seconds,
            seconds_to_srt_time (e.relative_seconds + 10), cueText e⟩]
  | e :: e' :: rest =>
    ⟨e.index, seconds_to_srt_time e.relative_seconds,
     seconds_to_srt_time e'.relative_seconds, cueText e⟩ :: write_srt (e' :: rest)

example : seconds_to_srt_time 3661 = "01:01:01,000" := by
  norm_num [seconds_to_srt_time, Int.fract]
  decide

example : seconds_to_srt_time (125 + 1/4) = "00:02:05,250" := by
  norm_num [seconds_to_srt_time, Int.fract]
  decide

example :
    segment_audio 16000 3 15 (1/2) [(0, 16000)] = [(0, 1)] := by
  norm_num [segment_audio, mergeLoop, splitLong]

example :
    segment_audio 16000 3 15 (1/2) [(0, 320000)] = [(0, 10), (10, 20)] := by
  have hc : (⌈(4:ℚ) / 3⌉) = 2 := by
    rw [Int.ceil_eq_iff]
    constructor <;> norm_num
  norm_num [segment_audio, mergeLoop, splitLong, hc,
    show Int.toNat 2 = 2 from rfl, show List.range 2 = [0, 1] from rfl, min_def]

/-! ## Derived runs used by the claims -/

/-- `N` consecutive capture successes reported to the monitor. -/
def iterCaptureSuccess : Nat → HealthMonitor → HealthMonitor
  | 0, h => h
  | n + 1, h => iterCaptureSuccess n (on_capture_success h)

/-- One failed translation attempt with the LM alive (`on_llm_error`
verdict `"retry"`): the item the translate worker puts back on the queue,
if any.  The requeue decision depends only on the item. -/
def failedOnce (target_lang ts : String) (now : Int) (h : HealthMonitor)
    (st : BufferState) (item : TranslateItem) : Option TranslateItem :=
  (translateStep target_lang ts now true h st item (.exc true)).2.2.requeued

/-- The sequence numbers assigned to new buffer entries along a run of the
translate worker, in order. -/
def assignedSeqs (target_lang : String) (h : HealthMonitor) (st : BufferState) :
    List TranslateInput → List Nat
  | [] => []
  | inp :: rest =>
    let r := translateStep target_lang inp.ts inp.now inp.gateAlive h st
      inp.item inp.result
    (match r.2.2.newEntry with
     | some e => [e.seq]
     | none => []) ++ assignedSeqs target_lang r.1 r.2.1 rest

/-- Fold `add_entry` over `(text, translation, relative_seconds)` items. -/
def add_entries (st : StructuredOutputState) :
    List (String × String × ℚ) → StructuredOutputState
  | [] => st
  | (t, tr, rel) :: rest => add_entries (add_entry st t tr rel) rest

/-! ## Helper lemmas -/

theorem dropWhile_head_not (p : α → Bool) (l : List α) (a : α)
    (ha : (l.dropWhile p).head? = some a) : p a = false := by
  have h := List.head?_dropWhile_not p l
  rw [ha] at h
  exact h

theorem dropWhile_eq_self_of_head (p : α → Bool) (l : List α)
    (h : ∀ a, l.head? = some a → p a = false) : l.dropWhile p = l := by
  cases l with
  | nil => rfl
  | cons x xs =>
    rw [List.dropWhile_cons, h x rfl]
    simp

theorem getLast?_of_suffix {l₁ l₂ : List α} (h : l₁ <:+ l₂) (a : α)
    (ha : l₁.getLast? = some a) : l₂.getLast? = some a := by
  obtain ⟨t, rfl⟩ := h
  cases l₁ with
  | nil => simp at ha
  | cons x xs => rw [List.getLast?_append_of_ne_nil _ (by simp)]; exact ha

/-- The head of a stripped string is not whitespace. -/
theorem pyStripList_head (l : List Char) (a : Char)
    (ha : (pyStripList l).head? = some a) : pyIsSpace a = false := by
  unfold pyStripList at ha
  rw [List.head?_reverse] at ha
  have hsuf := List.dropWhile_suffix (l := (l.dropWhile pyIsSpace).reverse)
    (p := pyIsSpace)
  have := getLast?_of_suffix hsuf a ha
  rw [List.getLast?_reverse] at this
  exact dropWhile_head_not pyIsSpace l a this

/-- The last character of a stripped string is not whitespace. -/
theorem pyStripList_getLast (l : List Char) (a : Char)
    (ha : (pyStripList l).getLast? = some a) : pyIsSpace a = false := by
  unfold pyStripList at ha
  rw [List.getLast?_reverse] at ha
  exact dropWhile_head_not pyIsSpace _ a ha

theorem pyStripList_idem (l : List Char) :
    pyStripList (pyStripList l) = pyStripList l := by
  have hhead : ∀ a, (pyStripList l).head? = some a → pyIsSpace a = false :=
    fun a ha => pyStripList_head l a ha
  have hlast : ∀ a, (pyStripList l).reverse.head? = some a → pyIsSpace a = false := by
    intro a ha
    rw [List.head?_reverse] at ha
    exact pyStripList_getLast l a ha
  show ((List.dropWhile pyIsSpace (pyStripList l)).reverse.dropWhile
    pyIsSpace).reverse = pyStripList l
  rw [dropWhile_eq_self_of_head _ _ hhead, dropWhile_eq_self_of_head _ _ hlast,
    List.reverse_reverse]

theorem pyStrip_idem (s : String) : pyStrip (pyStrip s) = pyStrip s := by
  unfold pyStrip
  rw [pyStripList_idem]

theorem iterCaptureSuccess_zero (n : Nat) (h : HealthMonitor)
    (h0 : h.consecutive_capture_errors = 0) :
    (iterCaptureSuccess n h).consecutive_capture_errors = 0 := by
  induction n generalizing h with
  | zero => exact h0
  | succ m ih => exact ih (on_capture_success h) rfl

theorem transcribeStep_enqueued_inv (skip cleanup : Bool) (ts : String)
    (text : Option String) (p : String × String)
    (hp : (transcribeStep skip cleanup ts text).enqueued = some p) :
    ∃ t, text = some t ∧ p = (t, ts) ∧ t ≠ "" ∧
      (transcribeStep skip cleanup ts text).transcriptLine
        = some ("[" ++ ts ++ "] [SYS] " ++ t) := by
  cases text with
  | none => simp [transcribeStep] at hp
  | some t =>
    by_cases h1 : t = ""
    · simp [transcribeStep, h1] at hp
    · by_cases h2 : skip = true ∧ pyLower (pyStrip t) ∈ hallucinationPatterns
      · simp [transcribeStep, h1, h2] at hp
      · obtain ⟨p1, p2⟩ := p
        simp [transcribeStep, h1, h2] at hp
        obtain ⟨hpt, hpts⟩ := hp
        subst hpt
        subst hpts
        exact ⟨t, rfl, rfl, h1, by simp [transcribeStep, h1, h2]⟩

/-! ## C4 — hallucination blacklist drops the chunk -/

/-- C4: with `SKIP_EMPTY_CHUNKS=true`, a transcription whose
lowercased, whitespace-trimmed text is in the fixed hallucination
blacklist is dropped: nothing is enqueued on the translation queue and no
`transcript.txt` line is produced. -/
theorem hallucination_blacklist_drops (cleanup : Bool) (ts t : String)
    (hmem : pyLower (pyStrip t) ∈ hallucinationPatterns) :
    (transcribeStep true cleanup ts (some t)).enqueued = none ∧
    (transcribeStep true cleanup ts (some t)).transcriptLine = none := by
  by_cases ht : t = ""
  · simp [transcribeStep, ht]
  · simp [transcribeStep, ht, hmem]

/-- Witness for C4 at the blacklisted transcription `"  Thank You "`. -/
theorem hallucination_blacklist_drops_witness :
    pyLower (pyStrip ("  Thank You ")) ∈ hallucinationPatterns ∧
    (transcribeStep true true ("ts1") (some ("  Thank You "))).enqueued = none ∧
    (transcribeStep true true ("ts1") (some ("  Thank You "))).transcriptLine = none :=
  ⟨by decide, hallucination_blacklist_drops true ("ts1") ("  Thank You ") (by decide)⟩

/-! ## C6 — capture-error verdicts depend only on the consecutive count -/

/-- C6: the capture-error verdict is `retry` when the bumped
consecutive-error count is at most 2, `backoff` for 3–5, `skip` above 5; a
capture success resets the count; hence after `N ≥ 1` successes followed
by one failure the verdict is `retry` regardless of `N` and of any earlier
state. -/
theorem capture_verdict_policy (h : HealthMonitor) (N : Nat) (hN : 1 ≤ N) :
    ((on_capture_error h).2 = "retry" ↔ h.consecutive_capture_errors + 1 ≤ 2) ∧
    ((on_capture_error h).2 = "backoff" ↔
      (3 ≤ h.consecutive_capture_errors + 1 ∧ h.consecutive_capture_errors + 1 ≤ 5)) ∧
    ((on_capture_error h).2 = "skip" ↔ 5 < h.consecutive_capture_errors + 1) ∧
    (on_capture_success h).consecutive_capture_errors = 0 ∧
    (on_capture_error (iterCaptureSuccess N h)).2 = "retry" := by
  have hiter : (iterCaptureSuccess N h).consecutive_capture_errors = 0 := by
    obtain ⟨m, rfl⟩ := Nat.exists_eq_add_of_le' hN
    exact iterCaptureSuccess_zero m (on_capture_success h) rfl
  refine ⟨?_, ?_, ?_, rfl, ?_⟩
  · simp only [on_capture_error]
    split_ifs with h1 h2 <;> simp_all
  · simp only [on_capture_error]
    split_ifs with h1 h2 <;> simp_all <;> omega
  · simp only [on_capture_error]
    split_ifs with h1 h2 <;> simp_all <;> omega
  · simp only [on_capture_error, hiter]
    simp

/-- Witness for C6: two successes after five straight errors, then one
failure, still yield `retry`. -/
theorem capture_verdict_policy_witness :
    (1 : Nat) ≤ 2 ∧
    ((on_capture_error ⟨false, 5, 0⟩).2 = "retry" ↔ (5 : Nat) + 1 ≤ 2) ∧
    ((on_capture_error ⟨false, 5, 0⟩).2 = "backoff" ↔
      (3 ≤ (5 : Nat) + 1 ∧ (5 : Nat) + 1 ≤ 5)) ∧
    ((on_capture_error ⟨false, 5, 0⟩).2 = "skip" ↔ 5 < (5 : Nat) + 1) ∧
    (on_capture_success ⟨false, 5, 0⟩).consecutive_capture_errors = 0 ∧
    (on_capture_error (iterCaptureSuccess 2 ⟨false, 5, 0⟩)).2 = "retry" :=
  ⟨by decide, capture_verdict_policy ⟨false, 5, 0⟩ 2 (by decide)⟩

/-! ## C7 — the transcribe stage never emits whitespace-only text -/

/-- C7: both transcriber backends return whitespace-stripped text, and the
transcribe worker drops empty text, so every enqueued item carries
non-whitespace text (stripping it again changes nothing and leaves it
nonempty), and every `transcript.txt` line embeds exactly that text. -/
theorem transcribe_no_whitespace_output (skip cleanup : Bool) (ts raw : String)
    (segs : List String) :
    (∀ p, (transcribeStep skip cleanup ts
        (some (transcribe_mlx raw))).enqueued = some p →
      p.1 ≠ "" ∧ pyStrip p.1 = p.1 ∧ pyStrip p.1 ≠ "") ∧
    (∀ p, (transcribeStep skip cleanup ts
        (some (transcribe_faster_whisper segs))).enqueued = some p →
      p.1 ≠ "" ∧ pyStrip p.1 = p.1 ∧ pyStrip p.1 ≠ "") ∧
    (∀ (text : Option String) p,
      (transcribeStep skip cleanup ts text).enqueued = some p →
      (transcribeStep skip cleanup ts text).transcriptLine
        = some ("[" ++ ts ++ "] [SYS] " ++ p.1)) := by
  refine ⟨?_, ?_, ?_⟩
  · intro p hp
    obtain ⟨t, ht, hpt, hne, _⟩ := transcribeStep_enqueued_inv _ _ _ _ _ hp
    obtain rfl : transcribe_mlx raw = t := by injection ht
    subst hpt
    have hidem : pyStrip (transcribe_mlx raw) = transcribe_mlx raw := pyStrip_idem raw
    exact ⟨hne, hidem, by
      show pyStrip (transcribe_mlx raw) ≠ ""
      rw [hidem]; exact hne⟩
  · intro p hp
    obtain ⟨t, ht, hpt, hne, _⟩ := transcribeStep_enqueued_inv _ _ _ _ _ hp
    obtain rfl : transcribe_faster_whisper segs = t := by injection ht
    subst hpt
    have hidem : pyStrip (transcribe_faster_whisper segs) = transcribe_faster_whisper segs :=
      pyStrip_idem (joinSpace (segs.map pyStrip))
    exact ⟨hne, hidem, by
      show pyStrip (transcribe_faster_whisper segs) ≠ ""
      rw [hidem]; exact hne⟩
  · intro text p hp
    obtain ⟨t, ht, hpt, _, hline⟩ := transcribeStep_enqueued_inv _ _ _ _ _ hp
    subst hpt
    exact hline

/-- Witness for C7 at the raw transcription `"  hi  "`. -/
theorem transcribe_no_whitespace_output_witness :
    (transcribeStep true true ("t0")
      (some (transcribe_mlx ("  hi  ")))).enqueued = some ("hi", "t0") ∧
    ("hi" ≠ "" ∧ pyStrip ("hi") = "hi" ∧ pyStrip ("hi") ≠ "") :=
  ⟨by decide,
   (transcribe_no_whitespace_output true true ("t0") ("  hi  ") []).1
     ("hi", "t0") (by decide)⟩

/-! ## C8 — WAV cleanup: only emitted chunks are deleted -/

/-- C8 as stated is false: with cleanup enabled, a successfully
transcribed chunk that is explicitly dropped by the hallucination filter
(here `"Thank you"`) is NOT deleted — the worker `continue`s before
reaching the cleanup branch. -/
theorem wav_cleanup_counterexample :
    (transcribeStep true true ("t0") (some ("Thank you"))).enqueued = none ∧
    (transcribeStep true true ("t0") (some ("Thank you"))).deleted = false := by
  decide

/-- C8 amended: the source WAV is deleted exactly when cleanup is enabled
AND the text is emitted downstream; explicit drops (empty text or
blacklist match) skip the cleanup. -/
theorem wav_cleanup_only_on_emission (skip cleanup : Bool) (ts : String)
    (text : Option String) :
    (transcribeStep skip cleanup ts text).deleted
      = (cleanup && (transcribeStep skip cleanup ts text).enqueued.isSome) := by
  cases text with
  | none => simp [transcribeStep]
  | some t =>
    simp only [transcribeStep]
    split_ifs <;> simp

/-! ## C5 — translate retry policy -/

/-- Closed form of the requeue decision in the failure branch of the
translate worker. -/
theorem translateStep_exc_requeued (target_lang ts : String) (now : Int)
    (gate : Bool) (h : HealthMonitor) (st : BufferState) (item : TranslateItem)
    (alive : Bool) :
    (translateStep target_lang ts now gate h st item (.exc alive)).2.2.requeued
      = if (h.lmstudio_was_down ∧ gate = false) ∨ alive = false ∨ 3 ≤ item.retry_count
        then none
        else some ⟨item.text, item.timestamp, item.retry_count + 1⟩ := by
  by_cases hgate : h.lmstudio_was_down ∧ gate = false
  · simp [translateStep, hgate, TranslateEffects.none_]
  · cases alive with
    | false => simp [translateStep, hgate, on_llm_error, TranslateEffects.none_]
    | true =>
      by_cases hrc : item.retry_count < 3
      · have h3 : ¬(3 ≤ item.retry_count) := by omega
        simp [translateStep, hgate, on_llm_error, hrc, h3, TranslateEffects.none_]
      · have h3 : 3 ≤ item.retry_count := by omega
        simp [translateStep, hgate, on_llm_error, hrc, h3, TranslateEffects.none_]

/-- C5: on a failed translation with verdict `retry` and retry budget left,
the item is requeued carrying its original text and timestamp with
`retry_count + 1`; with verdict `transcribe_only` or an exhausted budget it
is dropped; every requeued item has `retry_count ≤ 3`; and an item starting
at `retry_count = 0` survives three consecutive `retry` failures and is
dropped by the fourth. -/
theorem translate_retry_policy (target_lang ts : String) (now : Int)
    (gate : Bool) (h : HealthMonitor) (st : BufferState) (item : TranslateItem)
    (alive : Bool) :
    (item.retry_count < 3 →
      (translateStep target_lang ts now true h st item (.exc true)).2.2.requeued
        = some ⟨item.text, item.timestamp, item.retry_count + 1⟩) ∧
    (alive = false →
      (translateStep target_lang ts now gate h st item (.exc alive)).2.2.requeued
        = none) ∧
    (3 ≤ item.retry_count →
      (translateStep target_lang ts now gate h st item (.exc alive)).2.2.requeued
        = none) ∧
    (∀ (r : LlmResult) (j : TranslateItem),
      (translateStep target_lang ts now gate h st item r).2.2.requeued = some j →
      j.text = item.text ∧ j.timestamp = item.timestamp ∧
        j.retry_count = item.retry_count + 1 ∧ j.retry_count ≤ 3) ∧
    (item.retry_count = 0 →
      failedOnce target_lang ts now h st item
        = some ⟨item.text, item.timestamp, 1⟩ ∧
      failedOnce target_lang ts now h st ⟨item.text, item.timestamp, 1⟩
        = some ⟨item.text, item.timestamp, 2⟩ ∧
      failedOnce target_lang ts now h st ⟨item.text, item.timestamp, 2⟩
        = some ⟨item.text, item.timestamp, 3⟩ ∧
      failedOnce target_lang ts now h st ⟨item.text, item.timestamp, 3⟩ = none) := by
  refine ⟨?_, ?_, ?_, ?_, ?_⟩
  · intro hrc
    have h3 : ¬(3 ≤ item.retry_count) := by omega
    simp [translateStep_exc_requeued, h3]
  · intro ha
    rw [translateStep_exc_requeued, if_pos (Or.inr (Or.inl ha))]
  · intro hrc
    rw [translateStep_exc_requeued, if_pos (Or.inr (Or.inr hrc))]
  · intro r j hj
    cases r with
    | ok raw =>
      by_cases hgate : h.lmstudio_was_down ∧ gate = false
      · simp [translateStep, hgate, TranslateEffects.none_] at hj
      · by_cases htr : pyStrip raw = ""
        · simp [translateStep, hgate, htr, TranslateEffects.none_] at hj
        · simp [translateStep, hgate, htr, TranslateEffects.none_] at hj
    | exc alive' =>
      rw [translateStep_exc_requeued] at hj
      split_ifs at hj with hcond
      push_neg at hcond
      obtain ⟨-, -, hrc⟩ := hcond
      obtain rfl :
          (⟨item.text, item.timestamp, item.retry_count + 1⟩ : TranslateItem) = j := by
        injection hj
      exact ⟨rfl, rfl, rfl, by
        show item.retry_count + 1 ≤ 3
        omega⟩
  · intro h0
    have hrq : ∀ k : Nat, k < 3 →
        failedOnce target_lang ts now h st ⟨item.text, item.timestamp, k⟩
          = some ⟨item.text, item.timestamp, k + 1⟩ := by
      intro k hk
      have h3 : ¬(3 ≤ k) := by omega
      unfold failedOnce
      simp [translateStep_exc_requeued, h3]
    refine ⟨?_, hrq 1 (by omega), hrq 2 (by omega), ?_⟩
    · have h3 : ¬(3 ≤ item.retry_count) := by omega
      unfold failedOnce
      simp [translateStep_exc_requeued, h3, h0]
    · unfold failedOnce
      simp [translateStep_exc_requeued]

/-- Witness for C5: the four-consecutive-failure chain from
`retry_count = 0`. -/
theorem translate_retry_policy_witness :
    failedOnce ("Eng") ("t0") 0 HealthMonitor.init BufferState.init
      ⟨"x", "t1", 0⟩ = some ⟨"x", "t1", 1⟩ ∧
    failedOnce ("Eng") ("t0") 0 HealthMonitor.init BufferState.init
      ⟨"x", "t1", 1⟩ = some ⟨"x", "t1", 2⟩ ∧
    failedOnce ("Eng") ("t0") 0 HealthMonitor.init BufferState.init
      ⟨"x", "t1", 2⟩ = some ⟨"x", "t1", 3⟩ ∧
    failedOnce ("Eng") ("t0") 0 HealthMonitor.init BufferState.init
      ⟨"x", "t1", 3⟩ = none :=
  (translate_retry_policy ("Eng") ("t0") 0 true HealthMonitor.init
    BufferState.init ⟨"x", "t1", 0⟩ true).2.2.2.2 rfl

/-! ## C1 — buffer sequence numbers are strictly increasing -/

theorem translateStep_buffer_seq_le (target_lang ts : String) (now : Int)
    (gate : Bool) (h : HealthMonitor) (st : BufferState) (item : TranslateItem)
    (result : LlmResult) :
    st.buffer_seq
      ≤ (translateStep target_lang ts now gate h st item result).2.1.buffer_seq := by
  by_cases hgate : h.lmstudio_was_down ∧ gate = false
  · simp [translateStep, hgate]
  · cases result with
    | exc a =>
      by_cases hcond : (on_llm_error a
          (if h.lmstudio_was_down then on_llm_success h else h)).2 = "retry"
          ∧ item.retry_count < 3
      · simp [translateStep, hgate, hcond]
      · simp [translateStep, hgate, hcond]
    | ok raw =>
      by_cases htr : pyStrip raw = ""
      · simp [translateStep, hgate, htr]
      · simp [translateStep, hgate, htr]

theorem translateStep_newEntry_inv (target_lang ts : String) (now : Int)
    (gate : Bool) (h : HealthMonitor) (st : BufferState) (item : TranslateItem)
    (result : LlmResult) (e : BufferEntry)
    (he : (translateStep target_lang ts now gate h st item result).2.2.newEntry
      = some e) :
    e.seq = st.buffer_seq + 1 ∧
    (translateStep target_lang ts now gate h st item result).2.1.buffer_seq
      = st.buffer_seq + 1 := by
  by_cases hgate : h.lmstudio_was_down ∧ gate = false
  · simp [translateStep, hgate, TranslateEffects.none_] at he
  · cases result with
    | exc a =>
      by_cases hcond : (on_llm_error a
          (if h.lmstudio_was_down then on_llm_success h else h)).2 = "retry"
          ∧ item.retry_count < 3
      · simp [translateStep, hgate, hcond, TranslateEffects.none_] at he
      · simp [translateStep, hgate, hcond, TranslateEffects.none_] at he
    | ok raw =>
      by_cases htr : pyStrip raw = ""
      · simp [translateStep, hgate, htr, TranslateEffects.none_] at he
      · have he' : (⟨st.buffer_seq + 1, now, "[" ++ ts ++ "] " ++ pyStrip raw⟩
            : BufferEntry) = e := by
          simp [translateStep, hgate, htr] at he
          exact he
        constructor
        · rw [← he']
        · simp [translateStep, hgate, htr]

theorem assignedSeqs_gt (target_lang : String) (inputs : List TranslateInput) :
    ∀ (h : HealthMonitor) (st : BufferState),
    ∀ x ∈ assignedSeqs target_lang h st inputs, st.buffer_seq < x := by
  induction inputs with
  | nil => intro h st x hx; simp [assignedSeqs] at hx
  | cons inp rest ih =>
    intro h st x hx
    rcases hne : (translateStep target_lang inp.ts inp.now inp.gateAlive h st
        inp.item inp.result).2.2.newEntry with _ | e
    · simp only [assignedSeqs, hne, List.nil_append] at hx
      have hlt := ih _ _ x hx
      exact lt_of_le_of_lt
        (translateStep_buffer_seq_le target_lang inp.ts inp.now inp.gateAlive
          h st inp.item inp.result) hlt
    · obtain ⟨hseq, hbs⟩ := translateStep_newEntry_inv target_lang inp.ts inp.now
        inp.gateAlive h st inp.item inp.result e hne
      simp only [assignedSeqs, hne, List.singleton_append, List.mem_cons] at hx
      rcases hx with rfl | hx
      · omega
      · have hlt := ih _ _ x hx
        omega

theorem assignedSeqs_chain (target_lang : String) (inputs : List TranslateInput) :
    ∀ (h : HealthMonitor) (st : BufferState),
    List.Chain' (· < ·) (assignedSeqs target_lang h st inputs) := by
  induction inputs with
  | nil => intro h st; simp [assignedSeqs]
  | cons inp rest ih =>
    intro h st
    rcases hne : (translateStep target_lang inp.ts inp.now inp.gateAlive h st
        inp.item inp.result).2.2.newEntry with _ | e
    · simp only [assignedSeqs, hne, List.nil_append]
      exact ih _ _
    · obtain ⟨hseq, hbs⟩ := translateStep_newEntry_inv target_lang inp.ts inp.now
        inp.gateAlive h st inp.item inp.result e hne
      simp only [assignedSeqs, hne, List.singleton_append]
      refine List.chain'_cons'.mpr ⟨?_, ih _ _⟩
      intro b hb
      have hmem := List.mem_of_mem_head? hb
      have := assignedSeqs_gt target_lang rest _ _ b hmem
      omega

/-- C1: each successful translation assigns `seq = buffer_seq + 1`, so over
any run of the translate worker the assigned `BufferEntry.seq` values are
strictly increasing and pairwise distinct — no seq is ever reused, even
after ring-buffer eviction. -/
theorem buffer_seq_strictly_increasing (target_lang : String)
    (h : HealthMonitor) (st : BufferState) (inputs : List TranslateInput) :
    List.Chain' (· < ·) (assignedSeqs target_lang h st inputs) ∧
    (assignedSeqs target_lang h st inputs).Pairwise (· ≠ ·) ∧
    (∀ (inp : TranslateInput) (e : BufferEntry),
      (translateStep target_lang inp.ts inp.now inp.gateAlive h st
        inp.item inp.result).2.2.newEntry = some e →
      e.seq = st.buffer_seq + 1) := by
  refine ⟨assignedSeqs_chain target_lang inputs h st, ?_, ?_⟩
  · have hch := assignedSeqs_chain target_lang inputs h st
    have hpw := List.chain'_iff_pairwise.mp hch
    exact hpw.imp Nat.ne_of_lt
  · intro inp e he
    exact (translateStep_newEntry_inv target_lang inp.ts inp.now inp.gateAlive
      h st inp.item inp.result e he).1

/-- Witness for C1 on a one-success run from the initial state. -/
theorem buffer_seq_strictly_increasing_witness :
    (translateStep ("Eng") ("t2") 5 true HealthMonitor.init BufferState.init
      ⟨"x", "t1", 0⟩ (.ok ("hi"))).2.2.newEntry = some ⟨1, 5, "[t2] hi"⟩ ∧
    (1 : Nat) = BufferState.init.buffer_seq + 1 ∧
    List.Chain' (· < ·) (assignedSeqs ("Eng") HealthMonitor.init
      BufferState.init [⟨⟨"x", "t1", 0⟩, .ok ("hi"), true, "t2", 5⟩]) := by
  refine ⟨by decide, ?_, ?_⟩
  · exact (buffer_seq_strictly_increasing ("Eng") HealthMonitor.init
      BufferState.init [⟨⟨"x", "t1", 0⟩, .ok ("hi"), true, "t2", 5⟩]).2.2
      ⟨⟨"x", "t1", 0⟩, .ok ("hi"), true, "t2", 5⟩ ⟨1, 5, "[t2] hi"⟩ (by decide)
  · exact (buffer_seq_strictly_increasing ("Eng") HealthMonitor.init
      BufferState.init [⟨⟨"x", "t1", 0⟩, .ok ("hi"), true, "t2", 5⟩]).1

/-! ## C2 — the minutes stage advances `last_seen_seq` only on success -/

theorem dequeAppend_getLast? (cap : Nat) (hcap : 1 ≤ cap) (l : List α) (x : α) :
    (dequeAppend cap l x).getLast? = some x := by
  simp only [dequeAppend]
  split_ifs with hlen
  · have hz : (l ++ [x]).length - cap - l.length = 0 := by
      simp
      omega
    rw [List.drop_append_eq_append_drop, hz, List.drop_zero, List.getLast?_concat]
  · rw [List.getLast?_concat]

theorem dequeAppend_mem {cap : Nat} {l : List α} {x a : α}
    (ha : a ∈ dequeAppend cap l x) : a ∈ l ∨ a = x := by
  simp only [dequeAppend] at ha
  split_ifs at ha with hlen
  · have hm := List.mem_of_mem_drop ha
    rcases List.mem_append.mp hm with hm | hm
    · exact Or.inl hm
    · exact Or.inr (List.mem_singleton.mp hm)
  · rcases List.mem_append.mp ha with hm | hm
    · exact Or.inl hm
    · exact Or.inr (List.mem_singleton.mp hm)

/-- Characterization of the buffer state after one translate-worker
iteration: unchanged, or bumped-and-appended. -/
theorem translateStep_state_cases (target_lang ts : String) (now : Int)
    (gate : Bool) (h : HealthMonitor) (st : BufferState) (item : TranslateItem)
    (result : LlmResult) :
    (translateStep target_lang ts now gate h st item result).2.1 = st ∨
    ∃ line, (translateStep target_lang ts now gate h st item result).2.1
      = ⟨st.buffer_seq + 1,
         dequeAppend BUFFER_CAP st.translation_buffer
           ⟨st.buffer_seq + 1, now, line⟩⟩ := by
  by_cases hgate : h.lmstudio_was_down ∧ gate = false
  · left
    simp [translateStep, hgate]
  · cases result with
    | exc a =>
      left
      by_cases hcond : (on_llm_error a
          (if h.lmstudio_was_down then on_llm_success h else h)).2 = "retry"
          ∧ item.retry_count < 3
      · simp [translateStep, hgate, hcond]
      · simp [translateStep, hgate, hcond]
    | ok raw =>
      by_cases htr : pyStrip raw = ""
      · left
        simp [translateStep, hgate, htr]
      · right
        refine ⟨"[" ++ ts ++ "] " ++ pyStrip raw, ?_⟩
        simp [translateStep, hgate, htr]

/-- All branches of a failed minutes tick leave the stage state unchanged. -/
theorem minutesTick_fail (window now : Int) (buffer : List BufferEntry)
    (ms : MinutesState) :
    minutesTick window now buffer ms none = ms := by
  simp only [minutesTick]
  split_ifs <;> rfl

/-- A minutes tick either leaves the stage state unchanged or, on a
successful summarization, replaces it by the snapshot maximum and the new
summary. -/
theorem minutesTick_cases (window now : Int) (buffer : List BufferEntry)
    (ms : MinutesState) (summary : Option String) :
    minutesTick window now buffer ms summary = ms ∨
    ∃ m, summary = some m ∧
      minutesTick window now buffer ms summary
        = ⟨minutesCurrentMax buffer ms, m⟩ := by
  simp only [minutesTick]
  split_ifs with hlines hblank
  · exact Or.inl rfl
  · exact Or.inl rfl
  · cases summary with
    | none => exact Or.inl rfl
    | some m => exact Or.inr ⟨m, rfl, rfl⟩

/-- The minutes cursor never moves backwards, provided it is at most the
newest live entry's seq. -/
theorem minutesTick_last_seen_mono (window now : Int)
    (buffer : List BufferEntry) (ms : MinutesState) (summary : Option String)
    (hle : ∀ e, buffer.getLast? = some e → ms.last_seen_seq ≤ e.seq) :
    ms.last_seen_seq ≤ (minutesTick window now buffer ms summary).last_seen_seq := by
  rcases minutesTick_cases window now buffer ms summary with heq | ⟨m, hs, heq⟩
  · rw [heq]
  · rw [heq]
    show ms.last_seen_seq ≤ minutesCurrentMax buffer ms
    unfold minutesCurrentMax
    cases hl : buffer.getLast? with
    | none => exact Nat.le_refl _
    | some e => exact hle e hl

/-- Invariant of the combined translate/minutes system: the minutes cursor
never exceeds `buffer_seq`, every live entry's seq is at most `buffer_seq`,
and the newest live entry carries exactly `buffer_seq`. -/
def PipeInv (s : PipeState) : Prop :=
  s.minutes.last_seen_seq ≤ s.buf.buffer_seq ∧
  (∀ e ∈ s.buf.translation_buffer, e.seq ≤ s.buf.buffer_seq) ∧
  (∀ e, s.buf.translation_buffer.getLast? = some e → e.seq = s.buf.buffer_seq)

theorem pipeInv_init : PipeInv PipeState.init := by
  refine ⟨Nat.le_refl 0, ?_, ?_⟩ <;>
    simp [PipeState.init, BufferState.init, MinutesState.init]

theorem pipeInv_step (target_lang : String) (w : Int) (s : PipeState)
    (ev : PipeEvent) (hinv : PipeInv s) :
    PipeInv (pipeStep target_lang w s ev) := by
  obtain ⟨h1, h2, h3⟩ := hinv
  cases ev with
  | minutesEv now summary =>
    refine ⟨?_, h2, h3⟩
    show (minutesTick w now s.buf.translation_buffer s.minutes summary).last_seen_seq
      ≤ s.buf.buffer_seq
    rcases minutesTick_cases w now s.buf.translation_buffer s.minutes summary with
      heq | ⟨m, hs, heq⟩
    · rw [heq]; exact h1
    · rw [heq]
      show minutesCurrentMax s.buf.translation_buffer s.minutes ≤ s.buf.buffer_seq
      unfold minutesCurrentMax
      cases hl : s.buf.translation_buffer.getLast? with
      | none => exact h1
      | some e => exact Nat.le_of_eq (h3 e hl)
  | translateEv inp =>
    have hbuf : (pipeStep target_lang w s (.translateEv inp)).buf
        = (translateStep target_lang inp.ts inp.now inp.gateAlive s.health
            s.buf inp.item inp.result).2.1 := rfl
    have hmin : (pipeStep target_lang w s (.translateEv inp)).minutes
        = s.minutes := rfl
    rcases translateStep_state_cases target_lang inp.ts inp.now inp.gateAlive
        s.health s.buf inp.item inp.result with heq | ⟨line, heq⟩
    · refine ⟨?_, ?_, ?_⟩
      · rw [hmin, hbuf, heq]; exact h1
      · rw [hbuf, heq]; exact h2
      · rw [hbuf, heq]; exact h3
    · refine ⟨?_, ?_, ?_⟩
      · rw [hmin, hbuf, heq]
        exact Nat.le_succ_of_le h1
      · intro e he
        rw [hbuf, heq] at he ⊢
        rcases dequeAppend_mem he with hm | hm
        · exact Nat.le_succ_of_le (h2 e hm)
        · subst hm; exact Nat.le_refl _
      · intro e he
        rw [hbuf, heq] at he ⊢
        rw [dequeAppend_getLast? BUFFER_CAP (by norm_num [BUFFER_CAP])] at he
        obtain rfl := (Option.some.injEq _ _).mp he.symm
        rfl

theorem pipeInv_run (target_lang : String) (w : Int) (evs : List PipeEvent) :
    PipeInv (pipeRun target_lang w PipeState.init evs) := by
  suffices h : ∀ s, PipeInv s → PipeInv (pipeRun target_lang w s evs) from
    h PipeState.init pipeInv_init
  induction evs with
  | nil => intro s hs; exact hs
  | cons ev rest ih =>
    intro s hs
    exact ih _ (pipeInv_step target_lang w s ev hs)

/-- The live buffer of the system after a run of events. -/
def runBuf (target_lang : String) (w : Int) (evs : List PipeEvent) :
    List BufferEntry :=
  (pipeRun target_lang w PipeState.init evs).buf.translation_buffer

/-- The minutes-stage state of the system after a run of events. -/
def runMinutes (target_lang : String) (w : Int) (evs : List PipeEvent) :
    MinutesState :=
  (pipeRun target_lang w PipeState.init evs).minutes

/-- C2: along any run of the combined translate/minutes system from the
initial state, a minutes tick whose summarization fails changes neither
`last_seen_seq` nor `last_summary` (the same seq range is selected again
next tick); `last_seen_seq` never decreases; and a successful tick over a
nonempty, non-blank snapshot advances `last_seen_seq` to
`current_max_seq` and installs the new summary. -/
theorem minutes_advance_policy (target_lang : String) (w : Int)
    (evs : List PipeEvent) (now : Int) (summary : Option String) :
    ((pipeStep target_lang w (pipeRun target_lang w PipeState.init evs)
        (.minutesEv now none)).minutes = runMinutes target_lang w evs) ∧
    ((runMinutes target_lang w evs).last_seen_seq
      ≤ (pipeStep target_lang w (pipeRun target_lang w PipeState.init evs)
          (.minutesEv now summary)).minutes.last_seen_seq) ∧
    (∀ m, summary = some m →
      minutesNewLines w now (runBuf target_lang w evs)
        (runMinutes target_lang w evs) ≠ [] →
      pyStrip (joinNewline (minutesNewLines w now (runBuf target_lang w evs)
        (runMinutes target_lang w evs))) ≠ "" →
      (pipeStep target_lang w (pipeRun target_lang w PipeState.init evs)
          (.minutesEv now (some m))).minutes
        = ⟨minutesCurrentMax (runBuf target_lang w evs)
            (runMinutes target_lang w evs), m⟩) := by
  obtain ⟨h1, h2, h3⟩ := pipeInv_run target_lang w evs
  refine ⟨?_, ?_, ?_⟩
  · show minutesTick w now _ _ none = _
    exact minutesTick_fail w now _ _
  · show (runMinutes target_lang w evs).last_seen_seq
      ≤ (minutesTick w now (runBuf target_lang w evs)
          (runMinutes target_lang w evs) summary).last_seen_seq
    refine minutesTick_last_seen_mono w now _ _ summary ?_
    intro e hl
    rw [h3 e hl]
    exact h1
  · intro m hm hlines hblank
    show minutesTick w now (runBuf target_lang w evs)
      (runMinutes target_lang w evs) (some m) = _
    simp only [minutesTick]
    rw [if_neg hlines, if_neg hblank]

/-- Witness for C2: one successful translation, then one successful
minutes tick. -/
theorem minutes_advance_policy_witness :
    minutesNewLines 600 6
      (runBuf ("Eng") 600
        [.translateEv ⟨⟨"x", "t1", 0⟩, .ok ("hi"), true, "t2", 5⟩])
      (runMinutes ("Eng") 600
        [.translateEv ⟨⟨"x", "t1", 0⟩, .ok ("hi"), true, "t2", 5⟩]) ≠ [] ∧
    (pipeStep ("Eng") 600
      (pipeRun ("Eng") 600 PipeState.init
        [.translateEv ⟨⟨"x", "t1", 0⟩, .ok ("hi"), true, "t2", 5⟩])
      (.minutesEv 6 (some ("Summary")))).minutes
      = ⟨minutesCurrentMax
          (runBuf ("Eng") 600
            [.translateEv ⟨⟨"x", "t1", 0⟩, .ok ("hi"), true, "t2", 5⟩])
          (runMinutes ("Eng") 600
            [.translateEv ⟨⟨"x", "t1", 0⟩, .ok ("hi"), true, "t2", 5⟩]),
         "Summary"⟩ :=
  ⟨by decide,
   (minutes_advance_policy ("Eng") 600
     [.translateEv ⟨⟨"x", "t1", 0⟩, .ok ("hi"), true, "t2", 5⟩] 6
     (some ("Summary"))).2.2 ("Summary") rfl (by decide) (by decide)⟩

/-! ## C10 — empty translation result is silently discarded -/

/-- C10: when the LM call succeeds but the translation is empty after
stripping, the translate worker does nothing: no UI notification, no
`translation.txt` line, no structured-output entry, no buffer entry, no
requeue, and the buffer state (including `buffer_seq`) is unchanged. -/
theorem empty_translation_discarded (target_lang ts : String) (now : Int)
    (gate : Bool) (h : HealthMonitor) (st : BufferState) (item : TranslateItem)
    (raw : String) (hempty : pyStrip raw = "") :
    (translateStep target_lang ts now gate h st item (.ok raw)).2.2.uiNotified = false ∧
    (translateStep target_lang ts now gate h st item (.ok raw)).2.2.translationLine = none ∧
    (translateStep target_lang ts now gate h st item (.ok raw)).2.2.structuredEntry = none ∧
    (translateStep target_lang ts now gate h st item (.ok raw)).2.2.newEntry = none ∧
    (translateStep target_lang ts now gate h st item (.ok raw)).2.2.requeued = none ∧
    (translateStep target_lang ts now gate h st item (.ok raw)).2.1 = st := by
  by_cases hgate : h.lmstudio_was_down ∧ gate = false
  · simp [translateStep, hgate, TranslateEffects.none_]
  · simp [translateStep, hgate, hempty, TranslateEffects.none_]

/-- Witness for C10 at the whitespace-only translation `"  "`. -/
theorem empty_translation_discarded_witness :
    pyStrip ("  ") = "" ∧
    (translateStep ("Eng") ("t0") 0 true HealthMonitor.init BufferState.init
      ⟨"x", "t1", 0⟩ (.ok ("  "))).2.2.uiNotified = false ∧
    (translateStep ("Eng") ("t0") 0 true HealthMonitor.init BufferState.init
      ⟨"x", "t1", 0⟩ (.ok ("  "))).2.1 = BufferState.init :=
  ⟨by decide,
   (empty_translation_discarded ("Eng") ("t0") 0 true HealthMonitor.init
     BufferState.init ⟨"x", "t1", 0⟩ ("  ") (by decide)).1,
   (empty_translation_discarded ("Eng") ("t0") 0 true HealthMonitor.init
     BufferState.init ⟨"x", "t1", 0⟩ ("  ") (by decide)).2.2.2.2.2⟩

/-! ## C3 — VAD window durations -/

/-- Every window produced by the merge loop is well-formed (start before
end), given well-formed, chronologically sorted input spans. -/
theorem mergeLoop_mem_wf (minChunk gapS : ℚ) :
    ∀ (rest : List (ℚ × ℚ)) (cur : ℚ × ℚ),
    cur.1 ≤ cur.2 →
    (∀ p, rest.head? = some p → cur.2 ≤ p.1) →
    (∀ p ∈ rest, p.1 ≤ p.2) →
    List.Chain' (fun a b => a.2 ≤ b.1) rest →
    ∀ w ∈ mergeLoop minChunk gapS cur rest, w.1 ≤ w.2 := by
  intro rest
  induction rest with
  | nil =>
    intro cur hcur _ _ _ w hw
    simp only [mergeLoop, List.mem_singleton] at hw
    subst hw
    exact hcur
  | cons p rest ih =>
    intro cur hcur hconn hwf hch w hw
    obtain ⟨s, e⟩ := p
    have hs : cur.2 ≤ s := hconn (s, e) rfl
    have hse : s ≤ e := hwf (s, e) (List.mem_cons_self _ _)
    have hch' := (List.chain'_cons'.mp hch)
    simp only [mergeLoop] at hw
    split_ifs at hw with hcond
    · refine ih (cur.1, e) ?_ ?_ ?_ hch'.2 w hw
      · exact le_trans hcur (le_trans hs hse)
      · intro q hq
        exact hch'.1 q hq
      · intro q hq
        exact hwf q (List.mem_cons_of_mem _ hq)
    · rcases List.mem_cons.mp hw with rfl | hw
      · exact hcur
      · refine ih (s, e) hse ?_ ?_ hch'.2 w hw
        · intro q hq
          exact hch'.1 q hq
        · intro q hq
          exact hwf q (List.mem_cons_of_mem _ hq)

theorem splitLong_ceil_pos (maxChunk : ℚ) (hmax : 0 < maxChunk) (d : ℚ)
    (hd : maxChunk < d) : 0 < ⌈d / maxChunk⌉ := by
  rw [Int.ceil_pos]
  exact div_pos (lt_trans hmax hd) hmax

/-- In the split branch, every sub-window has duration exactly
`duration / n_parts`. -/
theorem splitLong_mem_duration (maxChunk : ℚ) (hmax : 0 < maxChunk)
    (s e : ℚ) (hd : maxChunk < e - s) :
    ∀ u ∈ splitLong maxChunk (s, e),
      u.2 - u.1 = (e - s) / ((⌈(e - s) / maxChunk⌉).toNat : ℚ) := by
  intro u hu
  have hceil := splitLong_ceil_pos maxChunk hmax (e - s) hd
  have hd0 : 0 < e - s := lt_trans hmax hd
  have hn : (0 : Nat) < (⌈(e - s) / maxChunk⌉).toNat := by omega
  have hcast : (((⌈(e - s) / maxChunk⌉).toNat : Int) : ℚ)
      = ((⌈(e - s) / maxChunk⌉ : Int) : ℚ) := by
    rw [Int.toNat_of_nonneg (le_of_lt hceil)]
  simp only [splitLong, not_le.mpr hd, if_false] at hu
  set n : Nat := (⌈(e - s) / maxChunk⌉).toNat with hndef
  set part : ℚ := (e - s) / (n : ℚ) with hpart
  obtain ⟨i, hi, hu⟩ := List.mem_map.mp hu
  have hin : i < n := List.mem_range.mp hi
  have hnpos : (0 : ℚ) < (n : ℚ) := by exact_mod_cast hn
  have hpartpos : 0 < part := div_pos hd0 hnpos
  have hmin : min (s + ((i : ℚ) + 1) * part) e = s + ((i : ℚ) + 1) * part := by
    apply min_eq_left
    have hle : ((i : ℚ) + 1) * part ≤ (n : ℚ) * part := by
      apply mul_le_mul_of_nonneg_right _ (le_of_lt hpartpos)
      exact_mod_cast hin
    have hnp : (n : ℚ) * part = e - s := by
      rw [hpart]
      field_simp
    linarith
  rw [← hu]
  simp only [hmin]
  ring

/-- Every window surviving the split step has duration between 0 and
`max_chunk_seconds`. -/
theorem splitLong_mem_bounds (maxChunk : ℚ) (hmax : 0 < maxChunk)
    (w : ℚ × ℚ) (hw : w.1 ≤ w.2) :
    ∀ u ∈ splitLong maxChunk w, 0 ≤ u.2 - u.1 ∧ u.2 - u.1 ≤ maxChunk := by
  intro u hu
  obtain ⟨s, e⟩ := w
  by_cases hd : e - s ≤ maxChunk
  · simp only [splitLong, hd, if_true, List.mem_singleton] at hu
    subst hu
    exact ⟨sub_nonneg.mpr hw, hd⟩
  · push_neg at hd
    have hdur := splitLong_mem_duration maxChunk hmax s e hd u hu
    have hceil := splitLong_ceil_pos maxChunk hmax (e - s) hd
    have hd0 : 0 < e - s := lt_trans hmax hd
    have hn : (0 : Nat) < (⌈(e - s) / maxChunk⌉).toNat := by omega
    have hnpos : (0 : ℚ) < (((⌈(e - s) / maxChunk⌉).toNat : Nat) : ℚ) := by
      exact_mod_cast hn
    have hcast : (((⌈(e - s) / maxChunk⌉).toNat : Nat) : ℚ)
        = ((⌈(e - s) / maxChunk⌉ : Int) : ℚ) := by
      exact_mod_cast Int.toNat_of_nonneg (le_of_lt hceil)
    constructor
    · rw [hdur]
      positivity
    · rw [hdur, div_le_iff₀ hnpos, hcast]
      have hle : (e - s) / maxChunk ≤ ((⌈(e - s) / maxChunk⌉ : Int) : ℚ) :=
        Int.le_ceil _
      rw [div_le_iff₀ hmax] at hle
      linarith

theorem splitLong_length (maxChunk : ℚ) (s e : ℚ) (hd : maxChunk < e - s) :
    (splitLong maxChunk (s, e)).length = (⌈(e - s) / maxChunk⌉).toNat := by
  simp [splitLong, not_le.mpr hd]

theorem sample_div_mono (sr : ℚ) (hsr : 0 < sr) (a b : Nat) (h : a ≤ b) :
    (a : ℚ) / sr ≤ (b : ℚ) / sr := by
  gcongr

theorem chain_map_sample_div (sr : ℚ) (hsr : 0 < sr) (l : List (Nat × Nat))
    (hch : List.Chain' (fun (a b : Nat × Nat) => a.2 ≤ b.1) l) :
    List.Chain' (fun (a b : ℚ × ℚ) => a.2 ≤ b.1)
      (l.map (fun q => ((q.1 : ℚ) / sr, (q.2 : ℚ) / sr))) := by
  rw [List.chain'_map]
  refine List.Chain'.imp ?_ hch
  intro a b hab
  exact sample_div_mono sr hsr a.2 b.1 hab


/-- C3 as stated is false: for the nonempty VAD timestamp list
`[(0, 16000)]` (one second of speech at 16 kHz), `segment_audio` with
`min_chunk_seconds = 3`, `max_chunk_seconds = 15`,
`silence_gap_seconds = 0.5` returns the single window `(0, 1)`, whose
duration 1 is below the claimed lower bound of 3 seconds. -/
theorem vad_segment_counterexample :
    segment_audio 16000 3 15 (1/2) [(0, 16000)] = [(0, 1)] ∧
    ((1 : ℚ) - 0 < 3) := by
  constructor
  · norm_num [segment_audio, mergeLoop, splitLong]
  · norm_num

/-- C3 amended: on well-formed, chronologically sorted VAD spans,
`segment_audio 3 15 0.5` returns well-formed windows of duration at
most 15 seconds (the claimed 3-second lower bound does NOT hold: a short
trailing or isolated speech region survives unmerged); the merge loop
absorbs the next speech span into the current window whenever the
inter-window gap is below `silence_gap_seconds = 0.5` (adjacent windows
with gap < 0.5 are merged, never emitted separately); and any window
whose duration exceeds 15 is split into `ceil(duration / 15)` sub-windows
of exactly equal duration. -/
theorem vad_segment_durations (sample_rate : ℚ) (hsr : 0 < sample_rate)
    (timestamps : List (Nat × Nat))
    (hwf : ∀ t ∈ timestamps, t.1 ≤ t.2)
    (hch : List.Chain' (fun (a b : Nat × Nat) => a.2 ≤ b.1) timestamps) :
    (∀ w ∈ segment_audio sample_rate 3 15 (1/2) timestamps,
      0 ≤ w.2 - w.1 ∧ w.2 - w.1 ≤ 15) ∧
    (∀ (cur : ℚ × ℚ) (s e : ℚ) (rest : List (ℚ × ℚ)), s - cur.2 < 1/2 →
      mergeLoop 3 (1/2) cur ((s, e) :: rest)
        = mergeLoop 3 (1/2) (cur.1, e) rest) ∧
    (∀ s e : ℚ, 15 < e - s →
      (splitLong 15 (s, e)).length = (⌈(e - s) / 15⌉).toNat ∧
      ∀ u ∈ splitLong 15 (s, e),
        u.2 - u.1 = (e - s) / ((⌈(e - s) / 15⌉).toNat : ℚ)) := by
  refine ⟨?_, ?_, ?_⟩
  · intro w hw
    cases timestamps with
    | nil => simp [segment_audio] at hw
    | cons t ts' =>
      simp only [segment_audio, List.map_cons] at hw
      rw [List.mem_flatMap] at hw
      obtain ⟨v, hv, hw⟩ := hw
      have hvwf : v.1 ≤ v.2 := by
        refine mergeLoop_mem_wf 3 (1/2) _ _ ?_ ?_ ?_ ?_ v hv
        · exact sample_div_mono sample_rate hsr t.1 t.2
            (hwf t (List.mem_cons_self _ _))
        · intro p hp
          cases ts' with
          | nil => simp at hp
          | cons t2 rest =>
            simp only [List.map_cons, List.head?_cons, Option.some.injEq] at hp
            subst hp
            have h21 : t.2 ≤ t2.1 := (List.chain'_cons'.mp hch).1 t2 rfl
            exact sample_div_mono sample_rate hsr t.2 t2.1 h21
        · intro p hp
          obtain ⟨q, hq, rfl⟩ := List.mem_map.mp hp
          exact sample_div_mono sample_rate hsr q.1 q.2
            (hwf q (List.mem_cons_of_mem _ hq))
        · exact chain_map_sample_div sample_rate hsr ts'
            (List.chain'_cons'.mp hch).2
      exact splitLong_mem_bounds 15 (by norm_num) v hvwf w hw
  · intro cur s e rest hgap
    simp only [mergeLoop]
    rw [if_pos (Or.inr hgap)]
  · intro s e hd
    exact ⟨splitLong_length 15 s e hd,
           splitLong_mem_duration 15 (by norm_num) s e hd⟩

/-- Witness for the amended C3: the one-second speech span for the
duration bounds, and a sub-half-second gap being merged. -/
theorem vad_segment_durations_witness :
    (0 : ℚ) < 16000 ∧
    (∀ w ∈ segment_audio 16000 3 15 (1/2) [(0, 16000)],
      0 ≤ w.2 - w.1 ∧ w.2 - w.1 ≤ 15) ∧
    ((5/4 : ℚ) - 1 < 1/2 ∧
      mergeLoop 3 (1/2) (0, 1) [(5/4, 2)] = mergeLoop 3 (1/2) (0, 2) []) :=
  ⟨by norm_num,
   (vad_segment_durations 16000 (by norm_num) [(0, 16000)]
     (by decide) (by simp)).1,
   by norm_num,
   (vad_segment_durations 16000 (by norm_num) [(0, 16000)]
     (by decide) (by simp)).2.1 (0, 1) (5/4) 2 [] (by norm_num)⟩

/-! ## C9 — the subtitle writer -/

theorem write_srt_length (l : List TranscriptEntry) :
    (write_srt l).length = l.length := by
  induction l with
  | nil => rfl
  | cons e tail ih =>
    cases tail with
    | nil => rfl
    | cons e' rest =>
      have hstep : write_srt (e :: e' :: rest)
          = ⟨e.index, seconds_to_srt_time e.relative_seconds,
             seconds_to_srt_time e'.relative_seconds, cueText e⟩
            :: write_srt (e' :: rest) := rfl
      rw [hstep, List.length_cons, ih]
      rfl

/-- Per-index characterization of `_write_srt`: cue `i` carries the entry's
counter, its own `relative_seconds` as start, the next entry's
`relative_seconds` (or start + 10 for the last) as end, and the
translation when nonempty, the original text otherwise. -/
theorem write_srt_getElem? (l : List TranscriptEntry) :
    ∀ (i : Nat) (e : TranscriptEntry), l[i]? = some e →
    (write_srt l)[i]? = some ⟨e.index,
      seconds_to_srt_time e.relative_seconds,
      seconds_to_srt_time (match l[i + 1]? with
        | some e' => e'.relative_seconds
        | none => e.relative_seconds + 10),
      cueText e⟩ := by
  induction l with
  | nil => intro i e he; simp at he
  | cons e0 tail ih =>
    intro i e he
    cases tail with
    | nil =>
      cases i with
      | zero =>
        simp only [List.getElem?_cons_zero, Option.some.injEq] at he
        subst he
        rfl
      | succ j => simp at he
    | cons e1 rest =>
      have hstep : write_srt (e0 :: e1 :: rest)
          = ⟨e0.index, seconds_to_srt_time e0.relative_seconds,
             seconds_to_srt_time e1.relative_seconds, cueText e0⟩
            :: write_srt (e1 :: rest) := rfl
      cases i with
      | zero =>
        simp only [List.getElem?_cons_zero, Option.some.injEq] at he
        subst he
        rw [hstep]
        simp [List.getElem?_cons_zero, List.getElem?_cons_succ]
      | succ j =>
        rw [List.getElem?_cons_succ] at he
        rw [hstep, List.getElem?_cons_succ, List.getElem?_cons_succ]
        exact ih j e he

theorem add_entries_index (items : List (String × String × ℚ)) :
    ∀ (st : StructuredOutputState),
    st.counter = st.entries.length →
    (∀ i e, st.entries[i]? = some e → e.index = i + 1) →
    ((add_entries st items).counter = (add_entries st items).entries.length ∧
     ∀ i e, (add_entries st items).entries[i]? = some e → e.index = i + 1) := by
  induction items with
  | nil => intro st h1 h2; exact ⟨h1, h2⟩
  | cons it rest ih =>
    obtain ⟨t, tr, rel⟩ := it
    intro st h1 h2
    refine ih (add_entry st t tr rel) ?_ ?_
    · simp [add_entry, h1]
    · intro i e he
      simp only [add_entry] at he
      by_cases hi : i < st.entries.length
      · rw [List.getElem?_append, if_pos hi] at he
        exact h2 i e he
      · push_neg at hi
        rw [List.getElem?_append, if_neg (by omega)] at he
        rcases hd : i - st.entries.length with _ | k
        · rw [hd] at he
          simp only [List.getElem?_cons_zero, Option.some.injEq] at he
          subst he
          simp only [h1]
          omega
        · rw [hd] at he
          simp at he

theorem padNum_len2 : ∀ n : Nat, n < 100 → (padNum 2 n).length = 2 := by decide

set_option maxRecDepth 4000 in
theorem padNum_len3 : ∀ n : Nat, n < 1000 → (padNum 3 n).length = 3 := by decide

/-- Below 100 hours, the formatter produces `HH:MM:SS,mmm`: two-digit
hours, minutes and seconds, three-digit milliseconds. -/
theorem seconds_to_srt_time_format (q : ℚ) (h0 : 0 ≤ q) (h1 : q < 360000) :
    ∃ hh mm ss mmm, seconds_to_srt_time q
      = hh ++ ":" ++ mm ++ ":" ++ ss ++ "," ++ mmm ∧
      hh.length = 2 ∧ mm.length = 2 ∧ ss.length = 2 ∧ mmm.length = 3 := by
  have hmaxq : max 0 q = q := max_eq_right h0
  have htot : (⌊max 0 q⌋).toNat < 360000 := by
    rw [hmaxq]
    have hfl : ⌊q⌋ < 360000 := by
      rw [Int.floor_lt]
      exact_mod_cast h1
    have h0f : (0 : Int) ≤ ⌊q⌋ := Int.floor_nonneg.mpr h0
    omega
  refine ⟨padNum 2 ((⌊max 0 q⌋).toNat / 3600),
          padNum 2 ((⌊max 0 q⌋).toNat % 3600 / 60),
          padNum 2 ((⌊max 0 q⌋).toNat % 60),
          padNum 3 ((⌊Int.fract q * 1000⌋).toNat), rfl, ?_, ?_, ?_, ?_⟩
  · exact padNum_len2 _ (by omega)
  · exact padNum_len2 _ (by omega)
  · exact padNum_len2 _ (by omega)
  · refine padNum_len3 _ ?_
    have hf0 : (0 : ℚ) ≤ Int.fract q := Int.fract_nonneg q
    have hf1 : Int.fract q < 1 := Int.fract_lt_one q
    have hml : ⌊Int.fract q * 1000⌋ < 1000 := by
      rw [Int.floor_lt]
      push_cast
      nlinarith
    have hm0 : (0 : Int) ≤ ⌊Int.fract q * 1000⌋ :=
      Int.floor_nonneg.mpr (by positivity)
    omega

/-- C9: the subtitle file has exactly one cue per entry, in insertion
order, with counters 1..n for entries built by `add_entry`; cue `i` starts
at its entry's `relative_seconds` and ends at the next entry's
`relative_seconds` (or start + 10.0 for the last cue); the cue text is the
translation when nonempty, the original text otherwise; and each timestamp
is rendered as `HH:MM:SS,mmm`. -/
theorem srt_writer_spec (l : List TranscriptEntry)
    (items : List (String × String × ℚ)) :
    ((write_srt l).length = l.length) ∧
    (∀ (i : Nat) (e : TranscriptEntry), l[i]? = some e →
      (write_srt l)[i]? = some ⟨e.index,
        seconds_to_srt_time e.relative_seconds,
        seconds_to_srt_time (match l[i + 1]? with
          | some e' => e'.relative_seconds
          | none => e.relative_seconds + 10),
        if e.translation = "" then e.text else e.translation⟩) ∧
    (∀ (i : Nat) (e : TranscriptEntry),
      (add_entries StructuredOutputState.init items).entries[i]? = some e →
      e.index = i + 1) ∧
    (∀ q : ℚ, 0 ≤ q → q < 360000 →
      ∃ hh mm ss mmm, seconds_to_srt_time q
        = hh ++ ":" ++ mm ++ ":" ++ ss ++ "," ++ mmm ∧
        hh.length = 2 ∧ mm.length = 2 ∧ ss.length = 2 ∧ mmm.length = 3) := by
  refine ⟨write_srt_length l, ?_, ?_, ?_⟩
  · intro i e he
    exact write_srt_getElem? l i e he
  · intro i e he
    refine (add_entries_index items StructuredOutputState.init rfl ?_).2 i e he
    intro j e' he'
    simp [StructuredOutputState.init] at he'
  · intro q h0 h1
    exact seconds_to_srt_time_format q h0 h1

/-- Witness for C9 on a two-entry transcript. -/
theorem srt_writer_spec_witness :
    ([(⟨"a", "A", 0, 1⟩ : TranscriptEntry), ⟨"b", "", 2, 2⟩][0]?
       = some ⟨"a", "A", 0, 1⟩) ∧
    ((write_srt [⟨"a", "A", 0, 1⟩, ⟨"b", "", 2, 2⟩])[0]?
       = some ⟨1, seconds_to_srt_time 0, seconds_to_srt_time 2, "A"⟩) ∧
    ((add_entries StructuredOutputState.init [("a", "A", 0)]).entries[0]?
       = some ⟨"a", "A", 0, 1⟩ → (1 : Nat) = 0 + 1) ∧
    (∃ hh mm ss mmm, seconds_to_srt_time 0
      = hh ++ ":" ++ mm ++ ":" ++ ss ++ "," ++ mmm ∧
      hh.length = 2 ∧ mm.length = 2 ∧ ss.length = 2 ∧ mmm.length = 3) := by
  have h := srt_writer_spec [⟨"a", "A", 0, 1⟩, ⟨"b", "", 2, 2⟩] [("a", "A", 0)]
  refine ⟨rfl, ?_, ?_, h.2.2.2 0 (le_refl 0) (by norm_num)⟩
  · exact h.2.1 0 ⟨"a", "A", 0, 1⟩ rfl
  · intro _
    exact h.2.2.1 0 ⟨"a", "A", 0, 1⟩ rfl

end Meeting
